import Mathlib

/-!
# Verification of the EI_extraction nutrition-report extractor

Shallow embedding of the core extraction logic of `EI_extraction.py`:
the text normalizer, the general-information fields (patient name, gender),
the macronutrient extractor with its derived-value calculator, and the
table-driven mineral / vitamin / INQ extractors.

Modelling conventions:
* Document text is a `List Char`; a Python string method acting on it
  becomes the corresponding list operation.
* Python `float` values are modelled as exact rationals `ℚ`; the numeric
  strings captured by the `[\d.]+` regex class denote exact decimals, and
  all arithmetic the program performs on them (multiplication by small
  constants, sums, division, `round(x, 2)`) is modelled exactly.
* Python `re` character classes are modelled over their ASCII meaning:
  `\s` is `[ \t\n\r\f\v]`, `\d` is `[0-9]`, `\w` is `[A-Za-z0-9_]`.
* A regex search is embedded as a scanning function that tries each start
  position from the left and, within a position, follows the pattern with
  the backtracking discipline of the Python engine (greedy `\s+`/`[\d.]+`
  runs collapse to maximal munch because the following pattern element can
  never consume the run's characters; the one lazy group of the source,
  in the patient-name pattern, is embedded with explicit shortest-first
  search).
* A Python function whose body can raise is embedded with `Except Unit`;
  an uncaught exception is `Except.error ()`.
-/

namespace EIExtraction

/-! ## Character classes (ASCII meaning of the Python `re` classes) -/

/-- The Python regex class `\s` (and the characters stripped by `str.strip`),
restricted to its ASCII members. -/
def pySpace (c : Char) : Bool :=
  c = ' ' || c = '\t' || c = '\n' || c = '\r' || c = '\x0b' || c = '\x0c'

/-- The regex class `[\d.]` used by every numeric capture group of the source. -/
def digitDot (c : Char) : Bool :=
  c.isDigit || c = '.'

/-- The regex class `\w` (word characters, for `\b` boundaries), ASCII meaning. -/
def isWordChar (c : Char) : Bool :=
  c.isAlpha || c.isDigit || c = '_'

/-- The class `[A-Za-z\s]` of the patient-name capture group
(source line 128). -/
def nameClass (c : Char) : Bool :=
  ('A' ≤ c && c ≤ 'Z') || ('a' ≤ c && c ≤ 'z') || pySpace c

/-! ## Python `float()` on `[\d.]+` captures

Every numeric conversion of the source is `float(match.group(1))` where the
group matched `[\d.]+`, so its argument is a nonempty string of digits and
dots.  On such a string Python's `float` succeeds exactly when the string
contains at least one digit and at most one dot, yielding the denoted
decimal; otherwise (e.g. `"..."` or `"1.2.3"`) it raises `ValueError`. -/

/-- Value of a digit string (most significant first). -/
def digitsVal (l : List Char) : ℕ :=
  l.foldl (fun n c => n * 10 + (c.toNat - 48)) 0

/-- `float()` applied to a string of digits and dots: `some` of the denoted
rational on well-formed input, `none` (a raised `ValueError`) otherwise. -/
def pyFloatDD (l : List Char) : Option ℚ :=
  if l.any Char.isDigit && l.count '.' ≤ 1 then
    let intPart := l.takeWhile (fun c => c ≠ '.')
    let fracPart := (l.dropWhile (fun c => c ≠ '.')).drop 1
    some ((digitsVal intPart : ℚ) + (digitsVal fracPart : ℚ) / (10 : ℚ) ^ fracPart.length)
  else
    none

/-! ## Python `round(x, 2)` -/

/-- Round a rational to the nearest integer, ties to even
(Python's rounding mode). -/
def roundHalfEven (q : ℚ) : ℤ :=
  let f := ⌊q⌋
  if q - f < 1 / 2 then f
  else if (1 : ℚ) / 2 < q - f then f + 1
  else if f % 2 = 0 then f else f + 1

/-- `round(q, 2)` of the source (line 219), on the exact-rational model. -/
def pyRound2 (q : ℚ) : ℚ :=
  (roundHalfEven (q * 100) : ℚ) / 100

/-! ## Normalizer (source lines 74-75)

```python
text_for_display = text.replace("\n", " ").strip()
text_normalized = text_for_display.replace(".", "").replace(",", ".")
```
-/

/-- `text.replace("\n", " ")`. -/
def pyReplaceNlSpace (l : List Char) : List Char :=
  l.map (fun c => if c = '\n' then ' ' else c)

/-- `str.strip()`: drop leading and trailing whitespace. -/
def pyStrip (l : List Char) : List Char :=
  ((l.dropWhile pySpace).reverse.dropWhile pySpace).reverse

/-- `str.replace(".", "")`: delete every dot. -/
def removeDots (l : List Char) : List Char :=
  l.filter (fun c => c ≠ '.')

/-- `str.replace(",", ".")`: rewrite every comma to a dot. -/
def commaToDot (l : List Char) : List Char :=
  l.map (fun c => if c = ',' then '.' else c)

/-- The display string of a document (source line 74). -/
def textForDisplay (raw : List Char) : List Char :=
  pyStrip (pyReplaceNlSpace raw)

/-- The numeric string derived from a display string (source line 75). -/
def numericOfDisplay (display : List Char) : List Char :=
  commaToDot (removeDots display)

/-- The numeric string of a document: normalizer output fed to all
numeric extractors. -/
def textNormalized (raw : List Char) : List Char :=
  numericOfDisplay (textForDisplay raw)

/-! ## Generic scanning matchers

Each `re.search` of the source is embedded as a left-to-right scan: the
pattern is tried at every start position, earliest first, exactly as the
Python engine does. -/

/-- Split a text around the first occurrence of the literal `pat`:
`some (before, after)` with `text = before ++ pat ++ after`. -/
def splitFirst (pat : List Char) : List Char → Option (List Char × List Char)
  | [] => if pat.isPrefixOf ([] : List Char) then some ([], []) else none
  | c :: rest =>
    if pat.isPrefixOf (c :: rest) then some ([], (c :: rest).drop pat.length)
    else
      match splitFirst pat rest with
      | some (a, b) => some (c :: a, b)
      | none => none

/-- `re.search` for a pattern that starts with the literal `lit`: at each
position, if `lit` matches there, run the continuation matcher `after` on
the remainder; on failure move one character right. -/
def searchLitThen (lit : List Char) (after : List Char → Option (List Char)) :
    List Char → Option (List Char)
  | [] => if lit.isPrefixOf ([] : List Char) then after [] else none
  | c :: rest =>
    if lit.isPrefixOf (c :: rest) then
      match after ((c :: rest).drop lit.length) with
      | some r => some r
      | none => searchLitThen lit after rest
    else searchLitThen lit after rest

/-- Continuation `([\d.]+)` closing a pattern: the capture is the maximal
(nonempty) run of digit/dot characters. -/
def matchNumCapture (l : List Char) : Option (List Char) :=
  let cap := l.takeWhile digitDot
  if cap = [] then none else some cap

/-- Continuation `\s+lit2\s+([\d.]+)` closing the mineral/vitamin patterns.
Both greedy `\s+` runs are maximal munch: the element after each run starts
with a non-whitespace character, so no shorter run can succeed. -/
def matchWsLitWsNum (lit2 : List Char) (l : List Char) : Option (List Char) :=
  let ws1 := l.takeWhile pySpace
  if ws1 = [] then none
  else
    let l1 := l.drop ws1.length
    if lit2.isPrefixOf l1 then
      let l2 := l1.drop lit2.length
      let ws2 := l2.takeWhile pySpace
      if ws2 = [] then none
      else matchNumCapture (l2.drop ws2.length)
    else none

/-- `re.search` for the INQ patterns `\b kw (\b)? \s* ([\d.]+)`
(source line 318; the trailing `\b` is present exactly for the
`Vitamina B1` / `Vitamina B12` keywords).  Every INQ keyword starts with a
word character, so the leading `\b` holds iff the previous character is
absent or not a word character; the scan carries the previous character. -/
def searchInq (kw : List Char) (tb : Bool) : Option Char → List Char → Option (List Char)
  | _, [] => none
  | prev, c :: rest =>
    if (match prev with | none => true | some p => !isWordChar p) &&
        kw.isPrefixOf (c :: rest) then
      let l1 := (c :: rest).drop kw.length
      if !tb || (match l1 with | [] => true | d :: _ => !isWordChar d) then
        match matchNumCapture (l1.drop (l1.takeWhile pySpace).length) with
        | some cap => some cap
        | none => searchInq kw tb (some c) rest
      else searchInq kw tb (some c) rest
    else searchInq kw tb (some c) rest

/-! ## General information: gender (source lines 136-138)

```python
gender_match = re.search(r"Sesso:\s*(Femmina|Maschio)", original_text, re.IGNORECASE)
if gender_match:
    general_info["Gender"] = 0 if gender_match.group(1) == "Femmina" else 1
```
-/

/-- Case-insensitive literal prefix test (`re.IGNORECASE`, ASCII case map). -/
def ciIsPrefixOf (pat l : List Char) : Bool :=
  pat.length ≤ l.length &&
    (l.take pat.length).map Char.toLower = pat.map Char.toLower

/-- Continuation `\s*(Femmina|Maschio)` under `re.IGNORECASE`; the capture is
the actual document text of the matched label. -/
def genderAfter (l : List Char) : Option (List Char) :=
  let l1 := l.drop (l.takeWhile pySpace).length
  if ciIsPrefixOf "Femmina".data l1 then some (l1.take 7)
  else if ciIsPrefixOf "Maschio".data l1 then some (l1.take 7)
  else none

/-- Scan for `Sesso:` (case-insensitively) followed by a gender label. -/
def searchGender : List Char → Option (List Char)
  | [] => none
  | c :: rest =>
    if ciIsPrefixOf "Sesso:".data (c :: rest) then
      match genderAfter ((c :: rest).drop 6) with
      | some g => some g
      | none => searchGender rest
    else searchGender rest

/-- The `Gender` field extracted from the display text: `0` iff the captured
label is exactly `"Femmina"` (a case-sensitive comparison), else `1`;
absent when the pattern does not match. -/
def extractGender (text : List Char) : Option ℕ :=
  (searchGender text).map (fun g => if g = "Femmina".data then 0 else 1)

/-! ## General information: patient name (source lines 128-130)

```python
name_match = re.search(r"Report del Calcolo intake alimentare\s+([A-Za-z\s]+?)\s+Visita del", original_text)
if name_match:
    general_info["Patient_Name"] = name_match.group(1).strip()
```

After the anchor literal the engine takes the greedy `\s+` run longest
first; inside it the lazy capture `[A-Za-z\s]+?` grows shortest first; the
closing `\s+Visita del` is maximal munch.  `nameTryCap` grows the capture,
`nameTryW1` shrinks the leading whitespace run. -/

/-- `\s+Visita del` at `l`. -/
def nameAfterCap (l : List Char) : Bool :=
  let ws := l.takeWhile pySpace
  ws ≠ [] && "Visita del".data.isPrefixOf (l.drop ws.length)

/-- Lazy growth of the `[A-Za-z\s]+?` capture: add one class character at a
time and test the closing `\s+Visita del` after each addition. -/
def nameTryCap (acc : List Char) : List Char → Option (List Char)
  | [] => none
  | c :: rest =>
    if nameClass c then
      if nameAfterCap rest then some (acc ++ [c])
      else nameTryCap (acc ++ [c]) rest
    else none

/-- Greedy `\s+` before the capture: try the run length `k`, longest first. -/
def nameTryW1 (r : List Char) : ℕ → Option (List Char)
  | 0 => none
  | k + 1 =>
    match nameTryCap [] (r.drop (k + 1)) with
    | some cap => some cap
    | none => nameTryW1 r k

/-- Continuation `\s+([A-Za-z\s]+?)\s+Visita del` after the anchor. -/
def nameAfterAnchor (r : List Char) : Option (List Char) :=
  nameTryW1 r (r.takeWhile pySpace).length

/-- The raw `group(1)` of the patient-name search. -/
def nameSearch (text : List Char) : Option (List Char) :=
  searchLitThen "Report del Calcolo intake alimentare".data nameAfterAnchor text

/-- The `Patient_Name` field extracted from the display text
(`group(1).strip()`), absent when the pattern does not match. -/
def extractPatientName (text : List Char) : Option (List Char) :=
  (nameSearch text).map pyStrip

/-! ## Macronutrient extractor (source lines 174-222)

The record starts with the four energy macronutrient gram fields, all
derived calorie / percent / total fields at `0.0`, and `kcal_per_kg` plus
the seven remaining base-gram fields at `None`.  The pattern loop runs over
the section text in dictionary order; a failed `float` conversion raises,
is caught by the surrounding `try`, and the partially updated record is
returned with no derived values computed. -/

structure Macros where
  Protein_g : ℚ
  Protein_kcal : ℚ
  Protein_pct : ℚ
  Carbs_g : ℚ
  Carbs_kcal : ℚ
  Carbs_pct : ℚ
  Fats_g : ℚ
  Fats_kcal : ℚ
  Fats_pct : ℚ
  Alcohol_g : ℚ
  Alcohol_kcal : ℚ
  Alcohol_pct : ℚ
  Total_kcal : ℚ
  kcal_per_kg : Option ℚ
  Protein_animal_g : Option ℚ
  Protein_veg_g : Option ℚ
  Cholesterol_mg : Option ℚ
  Sugar_simple_g : Option ℚ
  Sugar_complex_g : Option ℚ
  Fiber_g : Option ℚ
  Water_g : Option ℚ
deriving DecidableEq

/-- The initial dictionary of `extract_macronutrient_values_from_grams`
(source lines 175-183). -/
def macrosDefault : Macros :=
  { Protein_g := 0, Protein_kcal := 0, Protein_pct := 0
    Carbs_g := 0, Carbs_kcal := 0, Carbs_pct := 0
    Fats_g := 0, Fats_kcal := 0, Fats_pct := 0
    Alcohol_g := 0, Alcohol_kcal := 0, Alcohol_pct := 0
    Total_kcal := 0, kcal_per_kg := none
    Protein_animal_g := none, Protein_veg_g := none, Cholesterol_mg := none
    Sugar_simple_g := none, Sugar_complex_g := none, Fiber_g := none
    Water_g := none }

/-- `re.search(r"MACRONUTRIENTI(.*?)VITAMINE", text, re.DOTALL)`: the text
between the first `MACRONUTRIENTI` and the first `VITAMINE` after it. -/
def macroSection (text : List Char) : Option (List Char) :=
  match splitFirst "MACRONUTRIENTI".data text with
  | none => none
  | some (_, rest) =>
    match splitFirst "VITAMINE".data rest with
    | none => none
    | some (sect, _) => some sect

/-- Search for one base-gram pattern `lit([\d.]+)` inside the section text
(the literals of source lines 190-195 end in a space). -/
def gramCapture (lit : List Char) (sect : List Char) : Option (List Char) :=
  searchLitThen lit matchNumCapture sect

/-- Outcome of one loop iteration on a field: `none` = the conversion
raised; `some none` = pattern absent, no update; `some (some q)` = field
set to `q`. -/
def fieldParse (cap : Option (List Char)) : Option (Option ℚ) :=
  match cap with
  | none => some none
  | some c =>
    match pyFloatDD c with
    | some q => some (some q)
    | none => none

/-- One iteration of the pattern loop: once an exception has been raised
(flag `false`) the remaining iterations do not run. -/
def applyStep (st : Macros × Bool) (p : Option (Option ℚ) × (ℚ → Macros → Macros)) :
    Macros × Bool :=
  match st with
  | (m, false) => (m, false)
  | (m, true) =>
    match p.1 with
    | none => (m, false)
    | some none => (m, true)
    | some (some q) => (p.2 q m, true)

/-- The eleven base-gram patterns of source lines 189-196, in dictionary
(= iteration) order, each paired with its field update. -/
def stepList (sect : List Char) : List (Option (Option ℚ) × (ℚ → Macros → Macros)) :=
  [ (fieldParse (gramCapture "Protidi g ".data sect), fun q m => { m with Protein_g := q }),
    (fieldParse (gramCapture "Glucidi g ".data sect), fun q m => { m with Carbs_g := q }),
    (fieldParse (gramCapture "Lipidi g ".data sect), fun q m => { m with Fats_g := q }),
    (fieldParse (gramCapture "Alcool g ".data sect), fun q m => { m with Alcohol_g := q }),
    (fieldParse (gramCapture "Proteine animali g ".data sect), fun q m => { m with Protein_animal_g := some q }),
    (fieldParse (gramCapture "Proteine vegetali g ".data sect), fun q m => { m with Protein_veg_g := some q }),
    (fieldParse (gramCapture "Colesterolo mg ".data sect), fun q m => { m with Cholesterol_mg := some q }),
    (fieldParse (gramCapture "Zuccheri semplici g ".data sect), fun q m => { m with Sugar_simple_g := some q }),
    (fieldParse (gramCapture "Zuccheri complessi g ".data sect), fun q m => { m with Sugar_complex_g := some q }),
    (fieldParse (gramCapture "Fibra g ".data sect), fun q m => { m with Fiber_g := some q }),
    (fieldParse (gramCapture "Acqua g ".data sect), fun q m => { m with Water_g := some q }) ]

/-- The pattern loop over the section: final record and completion flag
(`false` iff a conversion raised). -/
def gramsLoop (sect : List Char) : Macros × Bool :=
  (stepList sect).foldl applyStep (macrosDefault, true)

/-- `true` iff every matched capture in the section converts successfully,
i.e. the pattern loop finishes without raising. -/
def gramsLoopOk (sect : List Char) : Bool :=
  (gramsLoop sect).2

/-- The derived-value block of source lines 203-219, run only when the
pattern loop completed: calories from grams at fixed densities, their
total, percent shares guarded by `total_kcal > 0`, and `kcal_per_kg`
guarded by the truthiness test `if total_kcal and weight_kg` (both values
nonzero, weight present). -/
def applyDerived (m : Macros) (weight_kg : Option ℚ) : Macros :=
  let pk := m.Protein_g * 4
  let ck := m.Carbs_g * 4
  let fk := m.Fats_g * 9
  let ak := m.Alcohol_g * 7
  let total := pk + ck + fk + ak
  let m1 : Macros :=
    { m with Protein_kcal := pk, Carbs_kcal := ck, Fats_kcal := fk,
             Alcohol_kcal := ak, Total_kcal := total }
  let m2 : Macros :=
    if 0 < total then
      { m1 with Protein_pct := pk / total * 100, Carbs_pct := ck / total * 100,
                Fats_pct := fk / total * 100, Alcohol_pct := ak / total * 100 }
    else m1
  match weight_kg with
  | none => m2
  | some w =>
    if total ≠ 0 ∧ w ≠ 0 then { m2 with kcal_per_kg := some (pyRound2 (total / w)) }
    else m2

/-- `extract_macronutrient_values_from_grams(text, weight_kg)`
(source lines 174-222). -/
def extractMacros (text : List Char) (weight_kg : Option ℚ) : Macros :=
  match macroSection text with
  | none => macrosDefault
  | some sect =>
    match gramsLoop sect with
    | (m, true) => applyDerived m weight_kg
    | (m, false) => m

/-! ## Table-driven extractors: minerals, vitamins, INQ
(source lines 225-253 and 307-321)

Each extractor iterates its keyword table in order, storing the first
numeric match or `None` per key; a failed conversion raises out of the
whole extractor (there is no `try` in these functions), which the
orchestrator `extract_all_variables_from_pdf` catches, reporting the
document as failed (`None` result, source lines 112-114). -/

/-- Build each record entry in order, aborting at the first raise. -/
def mapExcept {α β : Type} (f : α → Except Unit β) : List α → Except Unit (List β)
  | [] => .ok []
  | x :: xs =>
    match f x with
    | .error e => .error e
    | .ok b =>
      match mapExcept f xs with
      | .error e => .error e
      | .ok bs => .ok (b :: bs)

/-- `float(match.group(1)) if match else None`: raises when the captured
group is not a well-formed numeral. -/
def exceptFieldVal (cap : Option (List Char)) : Except Unit (Option ℚ) :=
  match cap with
  | none => .ok none
  | some c =>
    match pyFloatDD c with
    | some q => .ok (some q)
    | none => .error ()

/-- The mineral keyword table (source lines 227-231), in dictionary order. -/
def mineralTable : List (String × String) :=
  [("Calcio", "mg"), ("Cromo", "¬µg"), ("Ferro", "mg"), ("Fluoruri", "¬µg"),
   ("Fosforo", "mg"), ("Iodio", "¬µg"), ("Magnesio", "mg"), ("Manganese", "mg"),
   ("Molibdeno", "¬µg"), ("Potassio", "mg"), ("Rame", "mg"), ("Selenio", "¬µg"),
   ("Sodio", "mg"), ("Zinco", "mg")]

/-- Search for one `keyword\s+unit\s+([\d.]+)` pattern. -/
def tableCapture (kw unit text : List Char) : Option (List Char) :=
  searchLitThen kw (matchWsLitWsNum unit) text

/-- `extract_minerals(text)` (source lines 225-237): the record as a list of
`(key, value)` entries, or a raised exception. -/
def extractMinerals (text : List Char) : Except Unit (List (String × Option ℚ)) :=
  mapExcept (fun p =>
    match exceptFieldVal (tableCapture p.1.data p.2.data text) with
    | .error e => .error e
    | .ok v => .ok (p.1 ++ "_" ++ p.2, v)) mineralTable

/-- The vitamin keyword table (source lines 242-247), in dictionary order. -/
def vitaminTable : List (String × String) :=
  [("Acido pantotenico", "mg"), ("Œ≤-Carotene", "¬µg"), ("Biotina", "¬µg"),
   ("Folati", "¬µg"), ("Niacina", "mg"), ("Œ±-Tocoferolo", "mg"),
   ("Vitamina A", "¬µg RE"), ("Vitamina B1", "mg"), ("Vitamina B2", "mg"),
   ("Vitamina B6", "mg"), ("Vitamina B12", "¬µg"), ("Vitamina C", "mg"),
   ("Vitamina D", "¬µg"), ("Vitamina E", "mg TE"), ("Vitamina K", "¬µg")]

/-- `f"{vitamin}_{unit.replace(' ', '_')}"` (source line 249). -/
def vitaminKey (v u : String) : String :=
  v ++ "_" ++ String.mk (u.data.map (fun c => if c = ' ' then '_' else c))

/-- `extract_vitamins(text)` (source lines 240-253). -/
def extractVitamins (text : List Char) : Except Unit (List (String × Option ℚ)) :=
  mapExcept (fun p =>
    match exceptFieldVal (tableCapture p.1.data p.2.data text) with
    | .error e => .error e
    | .ok v => .ok (vitaminKey p.1 p.2, v)) vitaminTable

/-- The INQ keyword table (source lines 309-316), in dictionary order; the
boolean records the trailing `\b` present in the `Vitamina B1` and
`Vitamina B12` raw-string keywords. -/
def inqTable : List (String × String × Bool) :=
  [("INQ_Ca", "Calcio", false), ("INQ_Fe", "Ferro", false),
   ("INQ_Folati", "Folati", false), ("INQ_P", "Fosforo", false),
   ("INQ_Mg", "Magnesio", false), ("INQ_Mo", "Molibdeno", false),
   ("INQ_Niacina", "Niacina", false), ("INQ_Prot", "Protidi", false),
   ("INQ_Cu", "Rame", false), ("INQ_Se", "Selenio", false),
   ("INQ_VitA", "Vitamina A", false), ("INQ_VitB1", "Vitamina B1", true),
   ("INQ_VitB12", "Vitamina B12", true), ("INQ_VitB2", "Vitamina B2", false),
   ("INQ_VitB6", "Vitamina B6", false), ("INQ_VitC", "Vitamina C", false),
   ("INQ_VitD", "Vitamina D", false), ("INQ_Zn", "Zinco", false)]

/-- `extract_inq_values(text)` (source lines 307-321). -/
def extractInqValues (text : List Char) : Except Unit (List (String × Option ℚ)) :=
  mapExcept (fun p =>
    match exceptFieldVal (searchInq p.2.1.data p.2.2 none text) with
    | .error e => .error e
    | .ok v => .ok (p.1, v)) inqTable

/-! ## Decidable side conditions used by the claims -/

/-- Number of positions of `l` at which the literal `pat` occurs. -/
def occCount (pat : List Char) : List Char → ℕ
  | [] => if pat.isPrefixOf ([] : List Char) then 1 else 0
  | c :: rest =>
    (if pat.isPrefixOf (c :: rest) then 1 else 0) + occCount pat rest

/-- `true` iff every occurrence of `Vitamina B1` in the text is immediately
followed by a word character (i.e. the text has no standalone
`Vitamina B1` label occurrence). -/
def noStandaloneB1 : List Char → Bool
  | [] => true
  | c :: rest =>
    (if "Vitamina B1".data.isPrefixOf (c :: rest) then
      match (c :: rest).drop 11 with
      | [] => false
      | d :: _ => isWordChar d
     else true) && noStandaloneB1 rest

/-- `true` iff the character is neither a digit nor a separator rewritten by
the normalizer. -/
def plainChar (c : Char) : Bool :=
  !c.isDigit && c ≠ '.' && c ≠ ','

/-! ## Helper lemmas about the pattern loop -/

/-- A loop iteration whose pattern found no match leaves the state unchanged. -/
theorem applyStep_noMatch (st : Macros × Bool) (set : ℚ → Macros → Macros) :
    applyStep st (some none, set) = st := by
  rcases st with ⟨m, b⟩
  cases b <;> rfl

/-- A projection not updated by any iteration of a step list is unchanged by
the whole loop, whether or not an iteration raises. -/
theorem foldl_proj_of_noupdate {α : Type} (f : Macros → α) :
    ∀ (l : List (Option (Option ℚ) × (ℚ → Macros → Macros)))
      (st : Macros × Bool),
      (∀ p ∈ l, p.1 = some none ∨ ∀ q m, f (p.2 q m) = f m) →
      f ((l.foldl applyStep st).1) = f st.1 := by
  intro l
  induction l with
  | nil => intro st _; rfl
  | cons p l ih =>
    intro st h
    rw [List.foldl_cons, ih _ (fun p hp => h p (List.mem_cons_of_mem _ hp))]
    rcases h p (List.mem_cons_self _ _) with hp | hp
    · obtain ⟨p1, pset⟩ := p
      obtain rfl : p1 = some none := hp
      rw [applyStep_noMatch]
    · rcases st with ⟨m, b⟩
      cases b
      · rfl
      · rcases h1 : p.1 with _ | o
        · simp [applyStep, h1]
        · cases o
          · simp [applyStep, h1]
          · simp [applyStep, h1, hp]

/-! ## Helper lemmas about the derived-value block -/

/-- The derived-value block never changes the eleven base-gram fields. -/
theorem applyDerived_grams (m : Macros) (w : Option ℚ) :
    (applyDerived m w).Protein_g = m.Protein_g ∧
    (applyDerived m w).Carbs_g = m.Carbs_g ∧
    (applyDerived m w).Fats_g = m.Fats_g ∧
    (applyDerived m w).Alcohol_g = m.Alcohol_g ∧
    (applyDerived m w).Protein_animal_g = m.Protein_animal_g ∧
    (applyDerived m w).Protein_veg_g = m.Protein_veg_g ∧
    (applyDerived m w).Cholesterol_mg = m.Cholesterol_mg ∧
    (applyDerived m w).Sugar_simple_g = m.Sugar_simple_g ∧
    (applyDerived m w).Sugar_complex_g = m.Sugar_complex_g ∧
    (applyDerived m w).Fiber_g = m.Fiber_g ∧
    (applyDerived m w).Water_g = m.Water_g := by
  rcases w with _ | x <;> unfold applyDerived <;> dsimp only
  · split <;> exact ⟨rfl, rfl, rfl, rfl, rfl, rfl, rfl, rfl, rfl, rfl, rfl⟩
  · split <;> split <;> exact ⟨rfl, rfl, rfl, rfl, rfl, rfl, rfl, rfl, rfl, rfl, rfl⟩

/-- Calorie and total fields produced by the derived-value block. -/
theorem applyDerived_kcal (m : Macros) (w : Option ℚ) :
    (applyDerived m w).Protein_kcal = m.Protein_g * 4 ∧
    (applyDerived m w).Carbs_kcal = m.Carbs_g * 4 ∧
    (applyDerived m w).Fats_kcal = m.Fats_g * 9 ∧
    (applyDerived m w).Alcohol_kcal = m.Alcohol_g * 7 ∧
    (applyDerived m w).Total_kcal =
      m.Protein_g * 4 + m.Carbs_g * 4 + m.Fats_g * 9 + m.Alcohol_g * 7 := by
  rcases w with _ | x <;> unfold applyDerived <;> dsimp only
  · split <;> exact ⟨rfl, rfl, rfl, rfl, rfl⟩
  · split <;> split <;> exact ⟨rfl, rfl, rfl, rfl, rfl⟩

/-- Percent fields produced when the computed total is positive. -/
theorem applyDerived_pct_pos (m : Macros) (w : Option ℚ)
    (h : 0 < m.Protein_g * 4 + m.Carbs_g * 4 + m.Fats_g * 9 + m.Alcohol_g * 7) :
    (applyDerived m w).Protein_pct =
      m.Protein_g * 4 / (m.Protein_g * 4 + m.Carbs_g * 4 + m.Fats_g * 9 + m.Alcohol_g * 7) * 100 ∧
    (applyDerived m w).Carbs_pct =
      m.Carbs_g * 4 / (m.Protein_g * 4 + m.Carbs_g * 4 + m.Fats_g * 9 + m.Alcohol_g * 7) * 100 ∧
    (applyDerived m w).Fats_pct =
      m.Fats_g * 9 / (m.Protein_g * 4 + m.Carbs_g * 4 + m.Fats_g * 9 + m.Alcohol_g * 7) * 100 ∧
    (applyDerived m w).Alcohol_pct =
      m.Alcohol_g * 7 / (m.Protein_g * 4 + m.Carbs_g * 4 + m.Fats_g * 9 + m.Alcohol_g * 7) * 100 := by
  rcases w with _ | x <;> unfold applyDerived <;> dsimp only
  · rw [if_pos h]
    exact ⟨rfl, rfl, rfl, rfl⟩
  · rw [if_pos h]
    split <;> exact ⟨rfl, rfl, rfl, rfl⟩

/-- Percent fields are left untouched when the computed total is not positive. -/
theorem applyDerived_pct_nonpos (m : Macros) (w : Option ℚ)
    (h : ¬ 0 < m.Protein_g * 4 + m.Carbs_g * 4 + m.Fats_g * 9 + m.Alcohol_g * 7) :
    (applyDerived m w).Protein_pct = m.Protein_pct ∧
    (applyDerived m w).Carbs_pct = m.Carbs_pct ∧
    (applyDerived m w).Fats_pct = m.Fats_pct ∧
    (applyDerived m w).Alcohol_pct = m.Alcohol_pct := by
  rcases w with _ | x <;> unfold applyDerived <;> dsimp only
  · rw [if_neg h]
    exact ⟨rfl, rfl, rfl, rfl⟩
  · rw [if_neg h]
    split <;> exact ⟨rfl, rfl, rfl, rfl⟩

/-- The `kcal_per_kg` field produced by the derived-value block. -/
theorem applyDerived_kpk (m : Macros) (w : Option ℚ) :
    (w = none → (applyDerived m w).kcal_per_kg = m.kcal_per_kg) ∧
    (∀ x : ℚ, w = some x →
      ((m.Protein_g * 4 + m.Carbs_g * 4 + m.Fats_g * 9 + m.Alcohol_g * 7 ≠ 0 ∧ x ≠ 0) →
        (applyDerived m w).kcal_per_kg =
          some (pyRound2 ((m.Protein_g * 4 + m.Carbs_g * 4 + m.Fats_g * 9 + m.Alcohol_g * 7) / x))) ∧
      (¬ (m.Protein_g * 4 + m.Carbs_g * 4 + m.Fats_g * 9 + m.Alcohol_g * 7 ≠ 0 ∧ x ≠ 0) →
        (applyDerived m w).kcal_per_kg = m.kcal_per_kg)) := by
  rcases w with _ | y
  · constructor
    · intro _
      unfold applyDerived
      dsimp only
      split <;> rfl
    · intro x hx
      cases hx
  · constructor
    · intro hn
      cases hn
    · intro x hx
      obtain rfl : y = x := by injection hx
      constructor
      · intro hc
        unfold applyDerived
        dsimp only
        rw [if_pos hc]
      · intro hc
        unfold applyDerived
        dsimp only
        rw [if_neg hc]
        split <;> rfl

/-- Assembly helper: a projection not updated by any loop iteration and
untouched by the derived block keeps its initial-dictionary value. -/
theorem extractMacros_proj_default {α : Type} (f : Macros → α)
    (text : List Char) (w : Option ℚ) (sect : List Char)
    (hs : macroSection text = some sect)
    (hder : ∀ (m : Macros) (w2 : Option ℚ), f (applyDerived m w2) = f m)
    (hstep : ∀ p ∈ stepList sect, p.1 = some none ∨ ∀ q m, f (p.2 q m) = f m) :
    f (extractMacros text w) = f macrosDefault := by
  have hloop := foldl_proj_of_noupdate f (stepList sect) (macrosDefault, true) hstep
  rcases hgl : gramsLoop sect with ⟨m, b⟩
  have hm : f m = f macrosDefault := by
    have h2 : f ((gramsLoop sect).1) = f macrosDefault := hloop
    rw [hgl] at h2
    exact h2
  cases b
  · simp only [extractMacros, hs, hgl]
    exact hm
  · simp only [extractMacros, hs, hgl]
    rw [hder m w]
    exact hm

/-- A record entry built by `mapExcept` on a successful run: every table
entry yields its own `(key, value)` element of the result. -/
theorem mapExcept_mem {α β : Type} (f : α → Except Unit β) :
    ∀ (l : List α) (r : List β), mapExcept f l = .ok r →
      ∀ a ∈ l, ∃ b ∈ r, f a = .ok b := by
  intro l
  induction l with
  | nil => intro r _ a ha; cases ha
  | cons x xs ih =>
    intro r h a ha
    unfold mapExcept at h
    rcases hx : f x with e | b
    · rw [hx] at h; cases h
    · rw [hx] at h
      rcases hxs : mapExcept f xs with e | bs
      · rw [hxs] at h; cases h
      · rw [hxs] at h
        obtain rfl : b :: bs = r := by injection h
        rcases List.mem_cons.mp ha with rfl | ha2
        · exact ⟨b, List.mem_cons_self _ _, hx⟩
        · rcases ih bs hxs a ha2 with ⟨b2, hb2, hfb2⟩
          exact ⟨b2, List.mem_cons_of_mem _ hb2, hfb2⟩

/-! ## Soundness of the scanning matchers -/

/-- A successful search decomposes the text around an occurrence of the
leading literal at which the continuation matcher succeeds. -/
theorem searchLitThen_sound (lit : List Char) (after : List Char → Option (List Char)) :
    ∀ (l cap : List Char), searchLitThen lit after l = some cap →
      ∃ a b : List Char, l = a ++ lit ++ b ∧ after b = some cap := by
  intro l
  induction l with
  | nil =>
    intro cap h
    unfold searchLitThen at h
    by_cases hp : lit.isPrefixOf ([] : List Char)
    · rw [if_pos hp] at h
      have hl : lit = [] := List.prefix_nil.mp (List.isPrefixOf_iff_prefix.mp hp)
      exact ⟨[], [], by simp [hl], h⟩
    · rw [if_neg hp] at h
      cases h
  | cons c rest ih =>
    intro cap h
    unfold searchLitThen at h
    by_cases hp : lit.isPrefixOf (c :: rest)
    · rw [if_pos hp] at h
      have hdec : c :: rest = lit ++ (c :: rest).drop lit.length := by
        rcases List.isPrefixOf_iff_prefix.mp hp with ⟨t, ht⟩
        rw [← ht, List.drop_left]
      rcases hafter : after ((c :: rest).drop lit.length) with _ | r
      · rw [hafter] at h
        rcases ih cap h with ⟨a, b, e, hb⟩
        exact ⟨c :: a, b, by simp [e], hb⟩
      · rw [hafter] at h
        obtain rfl : r = cap := by injection h
        exact ⟨[], (c :: rest).drop lit.length, by simpa using hdec, hafter⟩
    · rw [if_neg hp] at h
      rcases ih cap h with ⟨a, b, e, hb⟩
      exact ⟨c :: a, b, by simp [e], hb⟩

/-- When the mineral/vitamin continuation succeeds, the text right after the
keyword starts with a whitespace character. -/
theorem matchWsLitWsNum_head (lit2 b cap : List Char)
    (h : matchWsLitWsNum lit2 b = some cap) :
    ∃ c rest, b = c :: rest ∧ pySpace c = true := by
  cases b with
  | nil => cases h
  | cons c rest =>
    by_cases hc : pySpace c
    · exact ⟨c, rest, rfl, hc⟩
    · exfalso
      unfold matchWsLitWsNum at h
      rw [List.takeWhile_cons] at h
      simp only [hc] at h
      simp at h

/-- A successful INQ search (with a trailing word boundary) decomposes the
text around an occurrence of the keyword that is not followed by a word
character. -/
theorem searchInq_sound (kw : List Char) :
    ∀ (l : List Char) (prev : Option Char) (cap : List Char),
      searchInq kw true prev l = some cap →
      ∃ a b : List Char, l = a ++ kw ++ b ∧
        (b = [] ∨ ∃ d rest, b = d :: rest ∧ isWordChar d = false) := by
  intro l
  induction l with
  | nil =>
    intro prev cap h
    cases h
  | cons c rest ih =>
    intro prev cap h
    have wrap : searchInq kw true (some c) rest = some cap →
        ∃ a b : List Char, c :: rest = a ++ kw ++ b ∧
          (b = [] ∨ ∃ d r2, b = d :: r2 ∧ isWordChar d = false) := by
      intro h2
      rcases ih (some c) cap h2 with ⟨a, b, e, hside⟩
      exact ⟨c :: a, b, by simp [e], hside⟩
    unfold searchInq at h
    dsimp only at h
    split at h
    · rename_i hcond
      split at h
      · rename_i hbnd
        split at h
        · rename_i r hm
          obtain rfl : r = cap := by injection h
          have hp : kw.isPrefixOf (c :: rest) = true := by
            cases hkw : kw.isPrefixOf (c :: rest)
            · rw [hkw, Bool.and_false] at hcond
              cases hcond
            · rfl
          have hdec : c :: rest = kw ++ (c :: rest).drop kw.length := by
            rcases List.isPrefixOf_iff_prefix.mp hp with ⟨t, ht⟩
            rw [← ht, List.drop_left]
          refine ⟨[], (c :: rest).drop kw.length, by simpa using hdec, ?_⟩
          have hbnd2 : (match (c :: rest).drop kw.length with
              | [] => true | d :: _ => !isWordChar d) = true := by
            simpa using hbnd
          rcases hdrop : (c :: rest).drop kw.length with _ | ⟨d, r2⟩
          · exact Or.inl rfl
          · rw [hdrop] at hbnd2
            exact Or.inr ⟨d, r2, rfl, by simpa using hbnd2⟩
        · exact wrap h
      · exact wrap h
    · exact wrap h

/-- A successful lazy-capture growth consumes a nonempty block of
name-class characters after which the closing matcher succeeds. -/
theorem nameTryCap_sound :
    ∀ (l acc cap : List Char), nameTryCap acc l = some cap →
      ∃ g rest : List Char, l = g ++ rest ∧ g ≠ [] ∧
        (∀ c ∈ g, nameClass c = true) ∧ nameAfterCap rest = true := by
  intro l
  induction l with
  | nil =>
    intro acc cap h
    cases h
  | cons c r ih =>
    intro acc cap h
    unfold nameTryCap at h
    by_cases hc : nameClass c = true
    · rw [if_pos hc] at h
      by_cases ha : nameAfterCap r = true
      · exact ⟨[c], r, rfl, by simp, by simpa using hc, ha⟩
      · rw [if_neg (by simpa using ha)] at h
        rcases ih (acc ++ [c]) cap h with ⟨g, rest, e, hg, hcls, haft⟩
        refine ⟨c :: g, rest, by simp [e], by simp, ?_, haft⟩
        intro d hd
        rcases List.mem_cons.mp hd with rfl | hd2
        · exact hc
        · exact hcls d hd2
    · rw [if_neg (by simpa using hc)] at h
      cases h

/-- A successful whitespace-run retry happened at some run length between 1
and the fuel bound. -/
theorem nameTryW1_sound (r : List Char) :
    ∀ (k : ℕ) (cap : List Char), nameTryW1 r k = some cap →
      ∃ j : ℕ, 1 ≤ j ∧ j ≤ k ∧ nameTryCap [] (r.drop j) = some cap := by
  intro k
  induction k with
  | zero =>
    intro cap h
    cases h
  | succ k ih =>
    intro cap h
    unfold nameTryW1 at h
    rcases hc : nameTryCap [] (r.drop (k + 1)) with _ | c
    · rw [hc] at h
      rcases ih cap h with ⟨j, hj1, hjk, hcap⟩
      exact ⟨j, hj1, Nat.le_succ_of_le hjk, hcap⟩
    · rw [hc] at h
      obtain rfl : c = cap := by injection h
      exact ⟨k + 1, Nat.succ_le_succ (Nat.zero_le k), le_rfl, hc⟩

/-- Dropping the length of the `takeWhile` block is `dropWhile`. -/
theorem drop_takeWhile_length (p : Char → Bool) :
    ∀ l : List Char, l.drop (l.takeWhile p).length = l.dropWhile p := by
  intro l
  induction l with
  | nil => rfl
  | cons c r ih =>
    by_cases hc : p c = true
    · simp [List.takeWhile_cons, List.dropWhile_cons, hc, ih]
    · simp [List.takeWhile_cons, List.dropWhile_cons, hc]

/-- The closing `\s+Visita del` matcher decomposes its input. -/
theorem nameAfterCap_sound (l : List Char) (h : nameAfterCap l = true) :
    ∃ ws b : List Char, l = ws ++ "Visita del".data ++ b ∧ ws ≠ [] ∧
      ∀ c ∈ ws, pySpace c = true := by
  unfold nameAfterCap at h
  rw [Bool.and_eq_true] at h
  obtain ⟨hws, hpre⟩ := h
  have hsplit : l = l.takeWhile pySpace ++ l.dropWhile pySpace :=
    (List.takeWhile_append_dropWhile pySpace l).symm
  rw [drop_takeWhile_length] at hpre
  rcases List.isPrefixOf_iff_prefix.mp hpre with ⟨b, hb⟩
  refine ⟨l.takeWhile pySpace, b, ?_, by simpa using hws, ?_⟩
  · rw [List.append_assoc, hb]
    exact hsplit
  · intro c hc
    exact List.mem_takeWhile_imp hc

/-- A successful patient-name search decomposes the display text as
`a ++ anchor ++ m ++ "Visita del" ++ b` with `m` nonempty and made only of
`[A-Za-z\s]` characters. -/
theorem nameSearch_sound (text cap : List Char) (h : nameSearch text = some cap) :
    ∃ a m b : List Char,
      text = a ++ "Report del Calcolo intake alimentare".data ++ m ++ "Visita del".data ++ b ∧
      m ≠ [] ∧ ∀ c ∈ m, nameClass c = true := by
  rcases searchLitThen_sound _ _ _ _ h with ⟨a, r, e, hr⟩
  unfold nameAfterAnchor at hr
  rcases nameTryW1_sound r _ cap hr with ⟨j, hj1, hjM, hcap⟩
  rcases nameTryCap_sound _ _ _ hcap with ⟨g, rest, erg, hg, hgcls, haft⟩
  rcases nameAfterCap_sound rest haft with ⟨ws2, b, erest, hws2, hws2s⟩
  have htakeWS : ∀ c ∈ r.take j, pySpace c = true := by
    intro c hc
    have h1 : r.take j = (r.takeWhile pySpace).take j := by
      conv_lhs => rw [(List.takeWhile_append_dropWhile pySpace r).symm]
      rw [List.take_append_eq_append_take, Nat.sub_eq_zero_of_le hjM, List.take_zero,
        List.append_nil]
    rw [h1] at hc
    exact List.mem_takeWhile_imp (List.take_subset j _ hc)
  refine ⟨a, r.take j ++ g ++ ws2, b, ?_, by simp [hg], ?_⟩
  · have hr2 : r = (r.take j ++ g ++ ws2) ++ "Visita del".data ++ b := by
      conv_lhs => rw [(List.take_append_drop j r).symm]
      rw [erg, erest]
      simp
    rw [e]
    conv_lhs => rw [hr2]
    simp
  · intro c hc
    rcases List.mem_append.mp hc with hc1 | hc2
    · rcases List.mem_append.mp hc1 with hc3 | hc4
      · have := htakeWS c hc3
        simp [nameClass, this]
      · exact hgcls c hc4
    · have := hws2s c hc2
      simp [nameClass, this]

/-- Whitespace characters are not word characters. -/
theorem pySpace_not_word (c : Char) (h : pySpace c = true) : isWordChar c = false := by
  simp only [pySpace, Bool.or_eq_true, decide_eq_true_eq] at h
  rcases h with ((((rfl | rfl) | rfl) | rfl) | rfl) | rfl <;> rfl

/-- The decidable no-standalone-occurrence scan implies that every
occurrence of `Vitamina B1` is followed by a word character. -/
theorem noStandaloneB1_spec :
    ∀ l : List Char, noStandaloneB1 l = true →
      ∀ a b : List Char, l = a ++ "Vitamina B1".data ++ b →
        ∃ (d : Char) (rest : List Char), b = d :: rest ∧ isWordChar d = true := by
  intro l
  induction l with
  | nil =>
    intro _ a b e
    exact absurd e.symm (by simp)
  | cons c r ih =>
    intro h a b e
    unfold noStandaloneB1 at h
    rw [Bool.and_eq_true] at h
    obtain ⟨h1, h2⟩ := h
    rcases a with _ | ⟨x, a2⟩
    · rw [List.nil_append] at e
      have hpre : "Vitamina B1".data.isPrefixOf (c :: r) = true :=
        List.isPrefixOf_iff_prefix.mpr ⟨b, e.symm⟩
      rw [if_pos hpre] at h1
      have hdrop : (c :: r).drop 11 = b := by
        rw [e, show (11 : ℕ) = ("Vitamina B1".data : List Char).length from rfl,
          List.drop_left]
      rw [hdrop] at h1
      rcases b with _ | ⟨d, rest⟩
      · cases h1
      · exact ⟨d, rest, rfl, h1⟩
    · obtain rfl : c = x := by injection e
      have erest : r = a2 ++ "Vitamina B1".data ++ b := by
        have e2 := e
        simp only [List.cons_append] at e2
        injection e2
      exact ih h2 a2 b erest

/-! ## Occurrence counting: uniqueness of anchor decompositions -/

theorem occCount_cons (pat : List Char) (c : Char) (r : List Char) :
    occCount pat (c :: r) =
      (if pat.isPrefixOf (c :: r) = true then 1 else 0) + occCount pat r := rfl

theorem occCount_le_append (pat x : List Char) :
    ∀ r : List Char, occCount pat r ≤ occCount pat (x ++ r) := by
  induction x with
  | nil => intro r; exact le_rfl
  | cons c t ih =>
    intro r
    calc occCount pat r ≤ occCount pat (t ++ r) := ih r
    _ ≤ occCount pat (c :: (t ++ r)) := by
        rw [occCount_cons]
        exact Nat.le_add_left _ _

theorem occCount_head_pos (pat y : List Char) (hne : pat ≠ []) :
    1 ≤ occCount pat (pat ++ y) := by
  rcases pat with _ | ⟨p, t⟩
  · exact absurd rfl hne
  · rw [List.cons_append, occCount_cons,
      if_pos (List.isPrefixOf_iff_prefix.mpr ⟨y, by simp⟩)]
    exact Nat.le_add_right 1 _

/-- Two genuinely different decompositions of a text around the same
pattern force at least two counted occurrences. -/
theorem occCount_two_of_two_splits (pat x y x2 y2 : List Char) (hne : pat ≠ [])
    (hlen : x.length < x2.length) (he : x ++ pat ++ y = x2 ++ pat ++ y2) :
    2 ≤ occCount pat (x ++ pat ++ y) := by
  have hx : x <+: x2 := by
    have hp1 : x <+: x ++ pat ++ y := by
      rw [List.append_assoc]
      exact List.prefix_append _ _
    have hp2 : x2 <+: x ++ pat ++ y := by
      rw [he, List.append_assoc]
      exact List.prefix_append _ _
    rcases List.prefix_or_prefix_of_prefix hp1 hp2 with h | h
    · exact h
    · exact absurd h.length_le (by omega)
  obtain ⟨d, rfl⟩ := hx
  have hd : d ≠ [] := by
    intro hd0
    rw [hd0] at hlen
    simp at hlen
  have he2 : pat ++ y = d ++ (pat ++ y2) := by
    simp only [List.append_assoc] at he
    exact List.append_cancel_left he
  rcases pat with _ | ⟨p, t⟩
  · exact absurd rfl hne
  · rcases d with _ | ⟨e, d2⟩
    · exact absurd rfl hd
    · have hpe : p = e := by injection he2
      have ht : t ++ y = d2 ++ ((p :: t) ++ y2) := by
        have e2 := he2
        simp only [List.cons_append] at e2
        injection e2 with _ h3
      have hrest : 1 ≤ occCount (p :: t) (t ++ y) := by
        rw [ht]
        calc 1 ≤ occCount (p :: t) ((p :: t) ++ y2) :=
              occCount_head_pos _ _ (by simp)
        _ ≤ occCount (p :: t) (d2 ++ ((p :: t) ++ y2)) := occCount_le_append _ _ _
      calc 2 = 1 + 1 := rfl
      _ ≤ 1 + occCount (p :: t) (t ++ y) := by omega
      _ = occCount (p :: t) ((p :: t) ++ y) := by
          rw [List.cons_append, occCount_cons,
            if_pos (List.isPrefixOf_iff_prefix.mpr ⟨y, by simp⟩)]
      _ ≤ occCount (p :: t) (x ++ ((p :: t) ++ y)) := occCount_le_append _ _ _
      _ = occCount (p :: t) (x ++ (p :: t) ++ y) := by rw [List.append_assoc]

/-- With exactly one counted occurrence, the decomposition around the
pattern is unique. -/
theorem split_unique (pat l x y x2 y2 : List Char) (hne : pat ≠ [])
    (hocc : occCount pat l = 1)
    (h1 : l = x ++ pat ++ y) (h2 : l = x2 ++ pat ++ y2) : x = x2 ∧ y = y2 := by
  have hlen : x.length = x2.length := by
    rcases Nat.lt_trichotomy x.length x2.length with h | h | h
    · exfalso
      have := occCount_two_of_two_splits pat x y x2 y2 hne h (h1.symm.trans h2)
      rw [← h1, hocc] at this
      omega
    · exact h
    · exfalso
      have := occCount_two_of_two_splits pat x2 y2 x y hne h (h2.symm.trans h1)
      rw [← h2, hocc] at this
      omega
  have hx : x = x2 := by
    rcases List.prefix_or_prefix_of_prefix
        (show x <+: l from h1 ▸ ⟨pat ++ y, by rw [List.append_assoc]⟩)
        (show x2 <+: l from h2 ▸ ⟨pat ++ y2, by rw [List.append_assoc]⟩) with h | h
    · exact h.eq_of_length hlen
    · exact (h.eq_of_length hlen.symm).symm
  refine ⟨hx, ?_⟩
  rw [hx] at h1
  have := h1.symm.trans h2
  rw [List.append_assoc, List.append_assoc] at this
  have h3 := List.append_cancel_left this
  exact List.append_cancel_left h3

/-- No iteration of the pattern loop touches a derived field: after the
loop (aborted or not) every derived field still holds its
initial-dictionary value. -/
theorem gramsLoop_nonGram (sect : List Char) :
    ((gramsLoop sect).1.Protein_kcal, (gramsLoop sect).1.Carbs_kcal,
     (gramsLoop sect).1.Fats_kcal, (gramsLoop sect).1.Alcohol_kcal,
     (gramsLoop sect).1.Protein_pct, (gramsLoop sect).1.Carbs_pct,
     (gramsLoop sect).1.Fats_pct, (gramsLoop sect).1.Alcohol_pct,
     (gramsLoop sect).1.Total_kcal, (gramsLoop sect).1.kcal_per_kg) =
    ((0 : ℚ), (0 : ℚ), (0 : ℚ), (0 : ℚ), (0 : ℚ), (0 : ℚ), (0 : ℚ), (0 : ℚ),
     (0 : ℚ), (none : Option ℚ)) := by
  exact foldl_proj_of_noupdate
    (fun mm => (mm.Protein_kcal, mm.Carbs_kcal, mm.Fats_kcal, mm.Alcohol_kcal,
      mm.Protein_pct, mm.Carbs_pct, mm.Fats_pct, mm.Alcohol_pct, mm.Total_kcal,
      mm.kcal_per_kg))
    (stepList sect) (macrosDefault, true)
    (by
      intro p hp
      simp only [stepList, List.mem_cons, List.not_mem_nil, or_false] at hp
      rcases hp with rfl | rfl | rfl | rfl | rfl | rfl | rfl | rfl | rfl | rfl | rfl <;>
        exact Or.inr (fun q mm => rfl))

/-! ## Claim C7 -/

/-- **C7**: the Normalizer computes the numeric string from the display
string by deleting every `.` character and then replacing every `,` with
`.` (after line breaks are mapped to single spaces and the result is
trimmed, which is how `textNormalized` is built from `textForDisplay`); in
particular any display string containing `"1.234,56"` yields a numeric
string containing `"1234.56"`. -/
theorem claim7_normalizer_algorithm :
    (∀ raw : List Char,
      textNormalized raw = commaToDot (removeDots (pyStrip (pyReplaceNlSpace raw)))) ∧
    ∀ a b : List Char, ∃ x y : List Char,
      numericOfDisplay (a ++ "1.234,56".data ++ b) = x ++ "1234.56".data ++ y := by
  constructor
  · intro raw
    rfl
  · intro a b
    refine ⟨commaToDot (removeDots a), commaToDot (removeDots b), ?_⟩
    unfold numericOfDisplay removeDots commaToDot
    rw [List.filter_append, List.filter_append, List.map_append, List.map_append]
    have hmid : ("1.234,56".data.filter (fun c => c ≠ '.')).map
        (fun c => if c = ',' then '.' else c) = "1234.56".data := by decide
    rw [hmid]

/-! ## Claim C8 -/

/-- **C8, counterexample**: the display string `"a,b"` contains no digit,
yet its derived numeric string is `"a.b"`, not the display string itself —
numeric normalization is not the identity on digit-free text. -/
theorem claim8_counterexample :
    "a,b".data.all (fun c => !c.isDigit) = true ∧
    numericOfDisplay "a,b".data ≠ "a,b".data := by decide

/-- **C8, amended**: the numeric normalization is the identity exactly on
text free of digits, dots and commas: for every display string whose
characters are neither digits nor `.` nor `,`, the derived numeric string
is identical to the display string. -/
theorem claim8_separator_free_identity (l : List Char)
    (h : l.all plainChar = true) : numericOfDisplay l = l := by
  have h2 : ∀ c ∈ l, plainChar c = true := fun c hc => List.all_eq_true.mp h c hc
  unfold numericOfDisplay removeDots commaToDot
  have hf : l.filter (fun c => c ≠ '.') = l := by
    apply List.filter_eq_self.mpr
    intro c hc
    have h3 := h2 c hc
    have hdot : c ≠ '.' := by
      intro hcc
      rw [hcc] at h3
      exact absurd h3 (by decide)
    simpa using hdot
  rw [hf]
  have hmap : ∀ c ∈ l, (if c = ',' then '.' else c) = id c := by
    intro c hc
    have h3 := h2 c hc
    have hcomma : c ≠ ',' := by
      intro hcc
      rw [hcc] at h3
      exact absurd h3 (by decide)
    simp [hcomma]
  rw [List.map_congr_left hmap, List.map_id]

/-- **C8, witness**: the amended identity evaluated on the separator-free
display string `"Sesso x Femmina"`. -/
theorem claim8_witness : numericOfDisplay "Sesso x Femmina".data = "Sesso x Femmina".data :=
  claim8_separator_free_identity "Sesso x Femmina".data (by decide)

/-! ## Claim C3 -/

/-- **C3**: gender matching is case-insensitive against the two fixed
labels, but the code maps to the female code `0` only the exact spelling
`Femmina`: the all-caps female label `FEMMINA` is matched and mapped to
`1`, the male code, contradicting the claim that any letter case of the
female label maps to the same code.  The other conjuncts document the
surrounding behaviour: exact-case female maps to `0`, the male label to
`1`, and any other value is absent. -/
theorem claim3_gender_case_bug :
    extractGender "Sesso: FEMMINA".data = some 1 ∧
    extractGender "Sesso: Femmina".data = some 0 ∧
    extractGender "Sesso: MASCHIO".data = some 1 ∧
    extractGender "Sesso: altro".data = none := by decide

/-! ## Claim C2 -/

/-- **C2**: a field-level pattern match can capture a group whose numeric
conversion fails, and the failure escalates to a document-level failure.
On the raw text `"Calcio mg 1,2,3"` the normalizer produces
`"Calcio mg 1.2.3"`, the calcium pattern matches with captured group
`"1.2.3"`, `float` on that group raises, and `extract_minerals` — which has
no exception handler — propagates the exception (`Except.error`), which the
orchestrator turns into a skipped document. -/
theorem claim2_conversion_failure_escalates :
    tableCapture "Calcio".data "mg".data (textNormalized "Calcio mg 1,2,3".data) =
      some "1.2.3".data ∧
    pyFloatDD "1.2.3".data = none ∧
    extractMinerals (textNormalized "Calcio mg 1,2,3".data) = .error () := by
  refine ⟨by decide, by decide, ?_⟩
  rfl

set_option maxRecDepth 10000

/-! ## Claim C6 -/

/-- **C6, counterexample**: on a text that does not contain the delimited
macronutrient subsection, the base-gram field `Water_g` stays at the absent
marker, not the zero the claim's description of the defaults (`zero for
base grams`) requires. -/
theorem claim6_counterexample :
    macroSection "Protidi g 50".data = none ∧
    (extractMacros "Protidi g 50".data (some 65)).Water_g = none ∧
    (extractMacros "Protidi g 50".data (some 65)).Water_g ≠ some 0 := by decide

/-- **C6, amended**: for every input text that does not contain the
delimited macronutrient subsection, the macronutrient extractor returns the
whole record at its initial-dictionary defaults — zero for the four energy
macronutrient gram fields and all derived calorie/percent/total fields,
absent for `kcal_per_kg` and the seven remaining base-gram fields — and no
derived value is computed from text outside that subsection. -/
theorem claim6_section_miss_defaults (text : List Char) (w : Option ℚ)
    (h : macroSection text = none) : extractMacros text w = macrosDefault := by
  simp [extractMacros, h]

/-- **C6, witness**: the amended theorem evaluated on a text containing the
macronutrient heading but no following section heading. -/
theorem claim6_witness :
    extractMacros "MACRONUTRIENTI Protidi g 50".data (some 65) = macrosDefault :=
  claim6_section_miss_defaults "MACRONUTRIENTI Protidi g 50".data (some 65) (by decide)

/-! ## Claim C1 -/

/-- **C1, counterexample**: on a text whose macronutrient section is found,
a base-gram field whose pattern does not match (`Water_g`) is set to the
absent marker, not to `0.0` as the claim states for all eleven base-gram
fields. -/
theorem claim1_counterexample :
    macroSection "MACRONUTRIENTI Protidi g 50 VITAMINE".data = some " Protidi g 50 ".data ∧
    (extractMacros "MACRONUTRIENTI Protidi g 50 VITAMINE".data none).Water_g = none ∧
    (extractMacros "MACRONUTRIENTI Protidi g 50 VITAMINE".data none).Water_g ≠ some 0 := by
  with_unfolding_all decide

/-- **C1, amended**: when the macronutrient section is found, each of the
four energy base-gram fields (protein, carbohydrate, fat, alcohol) whose
label pattern does not match within the section is exactly `0.0`, while
each of the seven other base-gram fields (animal protein, vegetable
protein, cholesterol, simple sugar, complex sugar, fiber, water) whose
label pattern does not match is the absent marker. -/
theorem claim1_basegram_defaults (text : List Char) (w : Option ℚ) (sect : List Char)
    (hs : macroSection text = some sect) :
    (gramCapture "Protidi g ".data sect = none → (extractMacros text w).Protein_g = 0) ∧
    (gramCapture "Glucidi g ".data sect = none → (extractMacros text w).Carbs_g = 0) ∧
    (gramCapture "Lipidi g ".data sect = none → (extractMacros text w).Fats_g = 0) ∧
    (gramCapture "Alcool g ".data sect = none → (extractMacros text w).Alcohol_g = 0) ∧
    (gramCapture "Proteine animali g ".data sect = none →
      (extractMacros text w).Protein_animal_g = none) ∧
    (gramCapture "Proteine vegetali g ".data sect = none →
      (extractMacros text w).Protein_veg_g = none) ∧
    (gramCapture "Colesterolo mg ".data sect = none →
      (extractMacros text w).Cholesterol_mg = none) ∧
    (gramCapture "Zuccheri semplici g ".data sect = none →
      (extractMacros text w).Sugar_simple_g = none) ∧
    (gramCapture "Zuccheri complessi g ".data sect = none →
      (extractMacros text w).Sugar_complex_g = none) ∧
    (gramCapture "Fibra g ".data sect = none → (extractMacros text w).Fiber_g = none) ∧
    (gramCapture "Acqua g ".data sect = none → (extractMacros text w).Water_g = none) := by
  refine ⟨fun hc => ?_, fun hc => ?_, fun hc => ?_, fun hc => ?_, fun hc => ?_, fun hc => ?_,
    fun hc => ?_, fun hc => ?_, fun hc => ?_, fun hc => ?_, fun hc => ?_⟩
  · exact extractMacros_proj_default (fun m => m.Protein_g) text w sect hs
      (fun m w2 => (applyDerived_grams m w2).1)
      (by
        intro p hp
        simp only [stepList, List.mem_cons, List.not_mem_nil, or_false] at hp
        rcases hp with rfl | rfl | rfl | rfl | rfl | rfl | rfl | rfl | rfl | rfl | rfl <;>
          first
          | exact Or.inl (by rw [hc]; rfl)
          | exact Or.inr (fun q m => rfl))
  · exact extractMacros_proj_default (fun m => m.Carbs_g) text w sect hs
      (fun m w2 => (applyDerived_grams m w2).2.1)
      (by
        intro p hp
        simp only [stepList, List.mem_cons, List.not_mem_nil, or_false] at hp
        rcases hp with rfl | rfl | rfl | rfl | rfl | rfl | rfl | rfl | rfl | rfl | rfl <;>
          first
          | exact Or.inl (by rw [hc]; rfl)
          | exact Or.inr (fun q m => rfl))
  · exact extractMacros_proj_default (fun m => m.Fats_g) text w sect hs
      (fun m w2 => (applyDerived_grams m w2).2.2.1)
      (by
        intro p hp
        simp only [stepList, List.mem_cons, List.not_mem_nil, or_false] at hp
        rcases hp with rfl | rfl | rfl | rfl | rfl | rfl | rfl | rfl | rfl | rfl | rfl <;>
          first
          | exact Or.inl (by rw [hc]; rfl)
          | exact Or.inr (fun q m => rfl))
  · exact extractMacros_proj_default (fun m => m.Alcohol_g) text w sect hs
      (fun m w2 => (applyDerived_grams m w2).2.2.2.1)
      (by
        intro p hp
        simp only [stepList, List.mem_cons, List.not_mem_nil, or_false] at hp
        rcases hp with rfl | rfl | rfl | rfl | rfl | rfl | rfl | rfl | rfl | rfl | rfl <;>
          first
          | exact Or.inl (by rw [hc]; rfl)
          | exact Or.inr (fun q m => rfl))
  · exact extractMacros_proj_default (fun m => m.Protein_animal_g) text w sect hs
      (fun m w2 => (applyDerived_grams m w2).2.2.2.2.1)
      (by
        intro p hp
        simp only [stepList, List.mem_cons, List.not_mem_nil, or_false] at hp
        rcases hp with rfl | rfl | rfl | rfl | rfl | rfl | rfl | rfl | rfl | rfl | rfl <;>
          first
          | exact Or.inl (by rw [hc]; rfl)
          | exact Or.inr (fun q m => rfl))
  · exact extractMacros_proj_default (fun m => m.Protein_veg_g) text w sect hs
      (fun m w2 => (applyDerived_grams m w2).2.2.2.2.2.1)
      (by
        intro p hp
        simp only [stepList, List.mem_cons, List.not_mem_nil, or_false] at hp
        rcases hp with rfl | rfl | rfl | rfl | rfl | rfl | rfl | rfl | rfl | rfl | rfl <;>
          first
          | exact Or.inl (by rw [hc]; rfl)
          | exact Or.inr (fun q m => rfl))
  · exact extractMacros_proj_default (fun m => m.Cholesterol_mg) text w sect hs
      (fun m w2 => (applyDerived_grams m w2).2.2.2.2.2.2.1)
      (by
        intro p hp
        simp only [stepList, List.mem_cons, List.not_mem_nil, or_false] at hp
        rcases hp with rfl | rfl | rfl | rfl | rfl | rfl | rfl | rfl | rfl | rfl | rfl <;>
          first
          | exact Or.inl (by rw [hc]; rfl)
          | exact Or.inr (fun q m => rfl))
  · exact extractMacros_proj_default (fun m => m.Sugar_simple_g) text w sect hs
      (fun m w2 => (applyDerived_grams m w2).2.2.2.2.2.2.2.1)
      (by
        intro p hp
        simp only [stepList, List.mem_cons, List.not_mem_nil, or_false] at hp
        rcases hp with rfl | rfl | rfl | rfl | rfl | rfl | rfl | rfl | rfl | rfl | rfl <;>
          first
          | exact Or.inl (by rw [hc]; rfl)
          | exact Or.inr (fun q m => rfl))
  · exact extractMacros_proj_default (fun m => m.Sugar_complex_g) text w sect hs
      (fun m w2 => (applyDerived_grams m w2).2.2.2.2.2.2.2.2.1)
      (by
        intro p hp
        simp only [stepList, List.mem_cons, List.not_mem_nil, or_false] at hp
        rcases hp with rfl | rfl | rfl | rfl | rfl | rfl | rfl | rfl | rfl | rfl | rfl <;>
          first
          | exact Or.inl (by rw [hc]; rfl)
          | exact Or.inr (fun q m => rfl))
  · exact extractMacros_proj_default (fun m => m.Fiber_g) text w sect hs
      (fun m w2 => (applyDerived_grams m w2).2.2.2.2.2.2.2.2.2.1)
      (by
        intro p hp
        simp only [stepList, List.mem_cons, List.not_mem_nil, or_false] at hp
        rcases hp with rfl | rfl | rfl | rfl | rfl | rfl | rfl | rfl | rfl | rfl | rfl <;>
          first
          | exact Or.inl (by rw [hc]; rfl)
          | exact Or.inr (fun q m => rfl))
  · exact extractMacros_proj_default (fun m => m.Water_g) text w sect hs
      (fun m w2 => (applyDerived_grams m w2).2.2.2.2.2.2.2.2.2.2)
      (by
        intro p hp
        simp only [stepList, List.mem_cons, List.not_mem_nil, or_false] at hp
        rcases hp with rfl | rfl | rfl | rfl | rfl | rfl | rfl | rfl | rfl | rfl | rfl <;>
          first
          | exact Or.inl (by rw [hc]; rfl)
          | exact Or.inr (fun q m => rfl))

/-- **C1, witness**: the amended theorem evaluated on a found section in
which no base-gram pattern matches: an energy gram field is `0.0` and
another base-gram field is absent. -/
theorem claim1_witness :
    (extractMacros "MACRONUTRIENTI x VITAMINE".data none).Carbs_g = 0 ∧
    (extractMacros "MACRONUTRIENTI x VITAMINE".data none).Water_g = none :=
  ⟨(claim1_basegram_defaults "MACRONUTRIENTI x VITAMINE".data none " x ".data
      (by decide)).2.1 (by decide),
   (claim1_basegram_defaults "MACRONUTRIENTI x VITAMINE".data none " x ".data
      (by decide)).2.2.2.2.2.2.2.2.2.2 (by decide)⟩

/-! ## Claim C4 -/

/-- **C4, counterexample**: with the section found but no gram matched,
`Total_kcal` is known (`0.0`) and the supplied weight is `65 > 0`, yet
`kcal_per_kg` stays absent (the code requires a *nonzero* total, via
truthiness), contradicting "computed exactly when total calories and the
weight are known and the weight is positive"; and with a negative supplied
weight `-65` and a nonzero total the code *does* compute `kcal_per_kg`,
contradicting "otherwise it stays absent". -/
theorem claim4_counterexample :
    (extractMacros "MACRONUTRIENTI VITAMINE".data (some 65)).Total_kcal = 0 ∧
    (extractMacros "MACRONUTRIENTI VITAMINE".data (some 65)).kcal_per_kg = none ∧
    (extractMacros "MACRONUTRIENTI Protidi g 50 VITAMINE".data (some (-65))).kcal_per_kg ≠
      none := by
  with_unfolding_all decide

/-- **C4, amended**: `kcal_per_kg` is computed exactly when the derived
total calories is nonzero and the supplied body weight is present and
nonzero (the code's truthiness test `if total_kcal and weight_kg`), in
which case it equals the total divided by the weight, rounded half-to-even
to two decimal places; otherwise it stays absent.  (With grams and weights
extracted from `[\d.]+` captures both quantities are non-negative, so
"nonzero" coincides with "positive" in pipeline use.) -/
theorem claim4_kcal_per_kg (text : List Char) (w : Option ℚ) :
    ((extractMacros text w).kcal_per_kg = none ↔
      ((extractMacros text w).Total_kcal = 0 ∨ w = none ∨ w = some 0)) ∧
    (∀ x : ℚ, w = some x → x ≠ 0 → (extractMacros text w).Total_kcal ≠ 0 →
      (extractMacros text w).kcal_per_kg =
        some (pyRound2 ((extractMacros text w).Total_kcal / x))) := by
  rcases hsec : macroSection text with _ | sect
  · have hr : extractMacros text w = macrosDefault := by simp [extractMacros, hsec]
    rw [hr]
    constructor
    · simp [macrosDefault]
    · intro x _ _ hT
      exact absurd rfl hT
  · rcases hgl : gramsLoop sect with ⟨m, b⟩
    have hng := gramsLoop_nonGram sect
    rw [hgl] at hng
    simp only [Prod.mk.injEq] at hng
    obtain ⟨_, _, _, _, _, _, _, _, hTot0, hkpk0⟩ := hng
    cases b
    · have hr : extractMacros text w = m := by simp [extractMacros, hsec, hgl]
      rw [hr]
      constructor
      · rw [hkpk0, hTot0]
        simp
      · intro x _ _ hT
        exact absurd hTot0 hT
    · have hr : extractMacros text w = applyDerived m w := by simp [extractMacros, hsec, hgl]
      obtain ⟨_, _, _, _, hk5⟩ := applyDerived_kcal m w
      obtain ⟨hkpkn, hkpks⟩ := applyDerived_kpk m w
      rw [hr, hk5]
      rcases w with _ | x
      · constructor
        · rw [hkpkn rfl, hkpk0]
          simp
        · intro x hx
          cases hx
      · obtain ⟨hpos, hneg⟩ := hkpks x rfl
        by_cases hc : m.Protein_g * 4 + m.Carbs_g * 4 + m.Fats_g * 9 + m.Alcohol_g * 7 ≠ 0
            ∧ x ≠ 0
        · constructor
          · rw [hpos hc]
            simp [hc.1, hc.2]
          · intro x2 hx2 _ _
            obtain rfl : x = x2 := by injection hx2
            rw [hpos hc]
        · push_neg at hc
          have hneg2 := hneg (by
            push_neg
            exact hc)
          constructor
          · rw [hneg2, hkpk0]
            constructor
            · intro _
              by_cases hT0 :
                  m.Protein_g * 4 + m.Carbs_g * 4 + m.Fats_g * 9 + m.Alcohol_g * 7 = 0
              · exact Or.inl hT0
              · exact Or.inr (Or.inr (by rw [hc hT0]))
            · intro _
              rfl
          · intro x2 hx2 hx20 hT2
            obtain rfl : x = x2 := by injection hx2
            exact absurd (hc hT2) hx20

/-- **C4, witness**: the amended theorem applied to a document with grams
`50/200/70/0` (total `1630`) and supplied weight `65`: `kcal_per_kg` is
computed as the rounded quotient. -/
theorem claim4_witness :
    (extractMacros
        "MACRONUTRIENTI Protidi g 50 Glucidi g 200 Lipidi g 70 Alcool g 0 VITAMINE".data
        (some 65)).kcal_per_kg =
      some (pyRound2
        ((extractMacros
            "MACRONUTRIENTI Protidi g 50 Glucidi g 200 Lipidi g 70 Alcool g 0 VITAMINE".data
            (some 65)).Total_kcal / 65)) :=
  (claim4_kcal_per_kg
      "MACRONUTRIENTI Protidi g 50 Glucidi g 200 Lipidi g 70 Alcool g 0 VITAMINE".data
      (some 65)).2 65 rfl (by norm_num) (by with_unfolding_all decide)

/-! ## Claim C5 -/

/-- **C5, counterexample**: the claim fails on an input whose section is
found but where a later capture (`"1..2"`) makes the numeric conversion
raise: the loop aborts after setting `Protein_g := 50`, the derived block
never runs, and `Protein_kcal` stays `0 ≠ Protein_g * 4`. -/
theorem claim5_counterexample :
    macroSection "MACRONUTRIENTI Protidi g 50 Glucidi g 1..2 VITAMINE".data =
      some " Protidi g 50 Glucidi g 1..2 ".data ∧
    (extractMacros "MACRONUTRIENTI Protidi g 50 Glucidi g 1..2 VITAMINE".data
        none).Protein_kcal ≠
      (extractMacros "MACRONUTRIENTI Protidi g 50 Glucidi g 1..2 VITAMINE".data
        none).Protein_g * 4 := by
  with_unfolding_all decide

/-- **C5, amended**: for every input whose macronutrient section is found
*and whose matched captures all convert successfully* (the pattern loop
completes), per-macronutrient calories equal grams times the fixed
densities (protein 4, carbohydrate 4, fat 9, alcohol 7), total calories
equals their sum, and each percent share equals that macronutrient's
calories divided by the total times 100, computed only when the total is
positive and left at the zero default otherwise. -/
theorem claim5_macro_derivation (text : List Char) (w : Option ℚ) (sect : List Char)
    (hs : macroSection text = some sect) (hok : gramsLoopOk sect = true) :
    (extractMacros text w).Protein_kcal = (extractMacros text w).Protein_g * 4 ∧
    (extractMacros text w).Carbs_kcal = (extractMacros text w).Carbs_g * 4 ∧
    (extractMacros text w).Fats_kcal = (extractMacros text w).Fats_g * 9 ∧
    (extractMacros text w).Alcohol_kcal = (extractMacros text w).Alcohol_g * 7 ∧
    (extractMacros text w).Total_kcal =
      (extractMacros text w).Protein_kcal + (extractMacros text w).Carbs_kcal +
      (extractMacros text w).Fats_kcal + (extractMacros text w).Alcohol_kcal ∧
    (0 < (extractMacros text w).Total_kcal →
      (extractMacros text w).Protein_pct =
        (extractMacros text w).Protein_kcal / (extractMacros text w).Total_kcal * 100 ∧
      (extractMacros text w).Carbs_pct =
        (extractMacros text w).Carbs_kcal / (extractMacros text w).Total_kcal * 100 ∧
      (extractMacros text w).Fats_pct =
        (extractMacros text w).Fats_kcal / (extractMacros text w).Total_kcal * 100 ∧
      (extractMacros text w).Alcohol_pct =
        (extractMacros text w).Alcohol_kcal / (extractMacros text w).Total_kcal * 100) ∧
    (¬ 0 < (extractMacros text w).Total_kcal →
      (extractMacros text w).Protein_pct = 0 ∧ (extractMacros text w).Carbs_pct = 0 ∧
      (extractMacros text w).Fats_pct = 0 ∧ (extractMacros text w).Alcohol_pct = 0) := by
  rcases hgl : gramsLoop sect with ⟨m, b⟩
  have hb : b = true := by
    have h2 : gramsLoopOk sect = b := by rw [gramsLoopOk, hgl]
    rw [h2] at hok
    exact hok
  subst hb
  have hng := gramsLoop_nonGram sect
  rw [hgl] at hng
  simp only [Prod.mk.injEq] at hng
  obtain ⟨_, _, _, _, hpp0, hcp0, hfp0, hap0, _, _⟩ := hng
  have hr : extractMacros text w = applyDerived m w := by simp [extractMacros, hs, hgl]
  rw [hr]
  obtain ⟨hg1, hg2, hg3, hg4, _, _, _, _, _, _, _⟩ := applyDerived_grams m w
  obtain ⟨hk1, hk2, hk3, hk4, hk5⟩ := applyDerived_kcal m w
  refine ⟨?_, ?_, ?_, ?_, ?_, ?_, ?_⟩
  · rw [hk1, hg1]
  · rw [hk2, hg2]
  · rw [hk3, hg3]
  · rw [hk4, hg4]
  · rw [hk5, hk1, hk2, hk3, hk4]
  · intro hpos
    rw [hk5] at hpos
    obtain ⟨hp1, hp2, hp3, hp4⟩ := applyDerived_pct_pos m w hpos
    exact ⟨by rw [hp1, hk1, hk5], by rw [hp2, hk2, hk5], by rw [hp3, hk3, hk5],
      by rw [hp4, hk4, hk5]⟩
  · intro hnpos
    rw [hk5] at hnpos
    obtain ⟨hp1, hp2, hp3, hp4⟩ := applyDerived_pct_nonpos m w hnpos
    exact ⟨by rw [hp1, hpp0], by rw [hp2, hcp0], by rw [hp3, hfp0], by rw [hp4, hap0]⟩

/-- **C5, witness**: the amended theorem applied to the document with grams
`50/200/70/0`: the calorie and total equations hold there. -/
theorem claim5_witness :
    (extractMacros
        "MACRONUTRIENTI Protidi g 50 Glucidi g 200 Lipidi g 70 Alcool g 0 VITAMINE".data
        none).Protein_kcal =
      (extractMacros
        "MACRONUTRIENTI Protidi g 50 Glucidi g 200 Lipidi g 70 Alcool g 0 VITAMINE".data
        none).Protein_g * 4 ∧
    (extractMacros
        "MACRONUTRIENTI Protidi g 50 Glucidi g 200 Lipidi g 70 Alcool g 0 VITAMINE".data
        none).Total_kcal =
      (extractMacros
        "MACRONUTRIENTI Protidi g 50 Glucidi g 200 Lipidi g 70 Alcool g 0 VITAMINE".data
        none).Protein_kcal +
      (extractMacros
        "MACRONUTRIENTI Protidi g 50 Glucidi g 200 Lipidi g 70 Alcool g 0 VITAMINE".data
        none).Carbs_kcal +
      (extractMacros
        "MACRONUTRIENTI Protidi g 50 Glucidi g 200 Lipidi g 70 Alcool g 0 VITAMINE".data
        none).Fats_kcal +
      (extractMacros
        "MACRONUTRIENTI Protidi g 50 Glucidi g 200 Lipidi g 70 Alcool g 0 VITAMINE".data
        none).Alcohol_kcal :=
  ⟨(claim5_macro_derivation
      "MACRONUTRIENTI Protidi g 50 Glucidi g 200 Lipidi g 70 Alcool g 0 VITAMINE".data
      none " Protidi g 50 Glucidi g 200 Lipidi g 70 Alcool g 0 ".data
      (by decide) (by decide)).1,
   (claim5_macro_derivation
      "MACRONUTRIENTI Protidi g 50 Glucidi g 200 Lipidi g 70 Alcool g 0 VITAMINE".data
      none " Protidi g 50 Glucidi g 200 Lipidi g 70 Alcool g 0 ".data
      (by decide) (by decide)).2.2.2.2.1⟩

/-! ## Claim C9 -/

/-- **C9**: for every numeric text that contains the phrase
`Vitamina B12 ¬µg 2.5` and in which no `Vitamina B1` occurrence is
standalone (every occurrence is immediately followed by a word character,
as in `Vitamina B12`), the `Vitamina B1` lookups of both the vitamins
extractor and the INQ extractor fail, and on any successful run of either
extractor the corresponding record entry is the absent marker: a label that
is a textual prefix of another label never matches the longer label's
occurrence. -/
theorem claim9_b1_word_boundary (text : List Char)
    (h1 : 1 ≤ occCount "Vitamina B12 ¬µg 2.5".data text)
    (h2 : noStandaloneB1 text = true) :
    tableCapture "Vitamina B1".data "mg".data text = none ∧
    searchInq "Vitamina B1".data true none text = none ∧
    (∀ r, extractVitamins text = .ok r →
      (vitaminKey "Vitamina B1" "mg", (none : Option ℚ)) ∈ r) ∧
    (∀ r, extractInqValues text = .ok r →
      (("INQ_VitB1" : String), (none : Option ℚ)) ∈ r) := by
  have hvit : tableCapture "Vitamina B1".data "mg".data text = none := by
    rcases hsearch : tableCapture "Vitamina B1".data "mg".data text with _ | cap
    · rfl
    · exfalso
      rcases searchLitThen_sound _ _ _ _ hsearch with ⟨a, b, e, hb⟩
      rcases matchWsLitWsNum_head _ _ _ hb with ⟨c, rest, rfl, hc⟩
      rcases noStandaloneB1_spec text h2 a (c :: rest) e with ⟨d, rest2, hd, hw⟩
      obtain rfl : c = d := by injection hd
      rw [pySpace_not_word c hc] at hw
      cases hw
  have hinq : searchInq "Vitamina B1".data true none text = none := by
    rcases hsearch : searchInq "Vitamina B1".data true none text with _ | cap
    · rfl
    · exfalso
      rcases searchInq_sound _ _ _ _ hsearch with ⟨a, b, e, hside⟩
      rcases noStandaloneB1_spec text h2 a b e with ⟨d, rest2, rfl, hw⟩
      rcases hside with h0 | ⟨d2, r2, he2, hnw⟩
      · cases h0
      · obtain rfl : d = d2 := by injection he2
        rw [hnw] at hw
        cases hw
  refine ⟨hvit, hinq, ?_, ?_⟩
  · intro r hok
    rcases mapExcept_mem _ vitaminTable r hok ("Vitamina B1", "mg") (by decide)
      with ⟨bb, hbr, hfb⟩
    dsimp only at hfb
    rw [hvit] at hfb
    dsimp only [exceptFieldVal] at hfb
    obtain rfl : (vitaminKey "Vitamina B1" "mg", (none : Option ℚ)) = bb := by
      injection hfb
    exact hbr
  · intro r hok
    rcases mapExcept_mem _ inqTable r hok ("INQ_VitB1", "Vitamina B1", true) (by decide)
      with ⟨bb, hbr, hfb⟩
    dsimp only at hfb
    rw [hinq] at hfb
    dsimp only [exceptFieldVal] at hfb
    obtain rfl : (("INQ_VitB1" : String), (none : Option ℚ)) = bb := by
      injection hfb
    exact hbr

/-- **C9, witness**: the theorem applied to the numeric text
`Vitamina B12 ¬µg 2.5` itself: both `Vitamina B1` lookups fail. -/
theorem claim9_witness :
    tableCapture "Vitamina B1".data "mg".data "Vitamina B12 ¬µg 2.5".data = none ∧
    searchInq "Vitamina B1".data true none "Vitamina B12 ¬µg 2.5".data = none :=
  ⟨(claim9_b1_word_boundary "Vitamina B12 ¬µg 2.5".data (by decide) (by decide)).1,
   (claim9_b1_word_boundary "Vitamina B12 ¬µg 2.5".data (by decide) (by decide)).2.1⟩

/-! ## Claim C10 -/

/-- **C10**: for every display text decomposed around one occurrence of the
report-title anchor and one occurrence of the visit-date anchor (each
anchor occurring exactly once in the text), if the characters between the
anchors include any character other than an unaccented ASCII letter or
whitespace (e.g. an accented letter or a hyphen in the patient's name), the
`Patient_Name` field is left absent: the capture class of the name pattern
is exactly `[A-Za-z\s]`. -/
theorem claim10_patient_name_charset (text p mid s : List Char)
    (he : text = p ++ "Report del Calcolo intake alimentare".data ++ mid ++
      "Visita del".data ++ s)
    (h1 : occCount "Report del Calcolo intake alimentare".data text = 1)
    (h2 : occCount "Visita del".data text = 1)
    (hbad : mid.any (fun c => !nameClass c) = true) :
    extractPatientName text = none := by
  unfold extractPatientName
  rcases hn : nameSearch text with _ | cap
  · rfl
  · exfalso
    rcases nameSearch_sound text cap hn with ⟨a, m, b, e2, _, hcls⟩
    have hu1 := split_unique "Report del Calcolo intake alimentare".data text
      p (mid ++ "Visita del".data ++ s) a (m ++ "Visita del".data ++ b)
      (by decide) h1
      (by rw [he]; simp only [List.append_assoc])
      (by rw [e2]; simp only [List.append_assoc])
    have hu2 := split_unique "Visita del".data text
      (p ++ "Report del Calcolo intake alimentare".data ++ mid) s
      (p ++ "Report del Calcolo intake alimentare".data ++ m) b
      (by decide) h2
      (by rw [he])
      (by rw [e2, ← hu1.1])
    have hmid : mid = m := by
      have h3 := hu2.1
      simp only [List.append_assoc] at h3
      have h4 := List.append_cancel_left h3
      exact List.append_cancel_left h4
    rcases List.any_eq_true.mp hbad with ⟨c, hcmem, hcbad⟩
    rw [hmid] at hcmem
    rw [hcls c hcmem] at hcbad
    cases hcbad

/-- **C10, witness**: the theorem applied to a report header whose patient
name contains a hyphen: `Patient_Name` is absent. -/
theorem claim10_witness :
    extractPatientName
      "Report del Calcolo intake alimentare Anna-Maria Rossi Visita del: 01/02/2023".data
      = none :=
  claim10_patient_name_charset
    "Report del Calcolo intake alimentare Anna-Maria Rossi Visita del: 01/02/2023".data
    [] " Anna-Maria Rossi ".data ": 01/02/2023".data
    (by decide) (by decide) (by decide) (by decide)

end EIExtraction
